import Mathlib

/-!
Shallow embedding of the cafe management program (src/cafe_management.py).

The SQLite tables are modelled as lists of records; REAL money columns are
modelled as rationals; INTEGER columns as Int (form input goes through
Python int(), which accepts negatives).  Each call to execute_db in the
source issues one SQL statement and immediately commits it; the commit of
an order is therefore modelled as a list of write steps, each of which is
individually durable once applied.
-/

namespace Cafe

/-- Row of the menu_items table (id, name, description, price REAL,
sku TEXT UNIQUE, active INTEGER). -/
structure MenuItem where
  id : Nat
  name : String
  description : String
  price : ℚ
  sku : String
  active : Int
deriving DecidableEq

/-- Row of the inventory table (sku TEXT UNIQUE, quantity INTEGER). -/
structure InvRecord where
  sku : String
  quantity : Int
deriving DecidableEq

/-- Row of the orders table (id, created_at TEXT, total REAL). -/
structure OrderRec where
  id : Nat
  created_at : String
  total : ℚ
deriving DecidableEq

/-- Row of the order_items table (id, order_id, menu_item_id, qty, price). -/
structure OrderItemRec where
  id : Nat
  order_id : Nat
  menu_item_id : Nat
  qty : Int
  price : ℚ
deriving DecidableEq

/-- The whole database state, plus the AUTOINCREMENT counters for the two
tables whose generated row ids the code observes (lastrowid). -/
structure DBState where
  menu_items : List MenuItem
  inventory : List InvRecord
  orders : List OrderRec
  order_items : List OrderItemRec
  next_order_id : Nat
  next_order_item_id : Nat
deriving DecidableEq

/-- request.form.get with default 0 passed through int():
qty_{id} lookup in the submitted form, modelled as an association list. -/
def formQty (form : List (Nat × Int)) (i : Nat) : Int :=
  match form.find? (fun p => p.1 = i) with
  | some p => p.2
  | none => 0

/-- SELECT * FROM menu_items WHERE active = 1 (row order preserved). -/
def activeMenu (st : DBState) : List MenuItem :=
  st.menu_items.filter (fun m => m.active = 1)

/-- One entry of the order_items list built by the loop in place_order:
the tuple (m.id, m.sku, m.name, qty, m.price, subtotal). -/
structure Line where
  menu_id : Nat
  sku : String
  name : String
  qty : Int
  price : ℚ
  subtotal : ℚ
deriving DecidableEq

/-- The loop over the active menu in place_order: read qty_{id} from the
form, keep the line when qty is strictly positive, record the catalog
price and the subtotal qty * price. -/
def collectLines (form : List (Nat × Int)) : List MenuItem → List Line
  | [] => []
  | m :: ms =>
      let q := formQty form m.id
      if 0 < q then
        { menu_id := m.id, sku := m.sku, name := m.name, qty := q,
          price := m.price, subtotal := (q : ℚ) * m.price } :: collectLines form ms
      else collectLines form ms

/-- The running total accumulated by the same loop (total += subtotal). -/
def computeTotal (lines : List Line) : ℚ :=
  lines.foldl (fun acc l => acc + l.subtotal) 0

/-- SELECT quantity FROM inventory WHERE sku = ? (first matching row). -/
def invLookup (inv : List InvRecord) (sku : String) : Option Int :=
  (inv.find? (fun r => r.sku = sku)).map (fun r => r.quantity)

/-- The inventory-check loop of place_order: for each line in order, if the
sku has no inventory row or its quantity is below the requested qty, stop
and report that line's name; otherwise continue. Returns none when every
line passes. -/
def checkInventory (inv : List InvRecord) : List Line → Option String
  | [] => none
  | l :: ls =>
      match invLookup inv l.sku with
      | none => some l.name
      | some q => if q < l.qty then some l.name else checkInventory inv ls

/-- One SQL statement issued (and individually committed) by execute_db
during the commit phase of place_order. -/
inductive WriteStep where
  | insertOrder (created_at : String) (total : ℚ)
  | insertOrderItem (order_id : Nat) (menu_item_id : Nat) (qty : Int) (price : ℚ)
  | decrementInv (sku : String) (qty : Int)
deriving DecidableEq

/-- UPDATE inventory SET quantity = quantity - ? WHERE sku = ?. -/
def applyDecrement (inv : List InvRecord) (sku : String) (q : Int) : List InvRecord :=
  inv.map (fun r => if r.sku = sku then { r with quantity := r.quantity - q } else r)

/-- Effect of one committed statement on the database state. -/
def applyStep (st : DBState) : WriteStep → DBState
  | .insertOrder t total =>
      { st with
        orders := st.orders ++ [{ id := st.next_order_id, created_at := t, total := total }],
        next_order_id := st.next_order_id + 1 }
  | .insertOrderItem oid mid q p =>
      { st with
        order_items := st.order_items ++
          [{ id := st.next_order_item_id, order_id := oid, menu_item_id := mid,
             qty := q, price := p }],
        next_order_item_id := st.next_order_item_id + 1 }
  | .decrementInv s q => { st with inventory := applyDecrement st.inventory s q }

/-- The per-line statements of the commit loop: INSERT INTO order_items
followed by UPDATE inventory, for each line in order. -/
def lineSteps (oid : Nat) : List Line → List WriteStep
  | [] => []
  | l :: ls =>
      .insertOrderItem oid l.menu_id l.qty l.price ::
      .decrementInv l.sku l.qty :: lineSteps oid ls

/-- The full statement sequence of the commit phase: INSERT INTO orders
(whose lastrowid is the current next_order_id) then the per-line pairs. -/
def commitSteps (st : DBState) (t : String) (lines : List Line) (total : ℚ) :
    List WriteStep :=
  .insertOrder t total :: lineSteps st.next_order_id lines

/-- State durably visible after the first k statements of the commit have
been executed; because execute_db commits each statement on its own, every
such prefix state is reachable and durable if a later statement fails. -/
def commitPrefix (st : DBState) (steps : List WriteStep) (k : Nat) : DBState :=
  (steps.take k).foldl applyStep st

/-- Discriminated result of place_order as observed by the caller (flash
message plus redirect target). -/
inductive PlaceOrderResult where
  | emptyOrder
  | insufficientInventory (name : String)
  | placed (order_id : Nat) (total : ℚ)
deriving DecidableEq

/-- The place_order route: build lines and total from the active menu and
the form, reject an empty selection, reject on the first line failing the
inventory check, otherwise run the commit statement sequence. The
timestamp t stands for datetime.now().isoformat(). -/
def place_order (st : DBState) (t : String) (form : List (Nat × Int)) :
    PlaceOrderResult × DBState :=
  if (collectLines form (activeMenu st)).isEmpty then (.emptyOrder, st)
  else
    match checkInventory st.inventory (collectLines form (activeMenu st)) with
    | some name => (.insufficientInventory name, st)
    | none =>
        (.placed st.next_order_id (computeTotal (collectLines form (activeMenu st))),
         (commitSteps st t (collectLines form (activeMenu st))
            (computeTotal (collectLines form (activeMenu st)))).foldl applyStep st)

/-- INSERT OR IGNORE INTO inventory (sku, quantity) VALUES (?, ?). -/
def insertOrIgnoreInv (inv : List InvRecord) (sku : String) (q : Int) :
    List InvRecord :=
  if (inv.find? (fun r => r.sku = sku)).isSome then inv
  else inv ++ [{ sku := sku, quantity := q }]

/-- The admin_update_inventory route: INSERT OR REPLACE INTO inventory
(sku, quantity) VALUES (?, ?) — any conflicting row on the unique sku is
deleted and a fresh row with exactly the supplied quantity is inserted. -/
def admin_update_inventory (st : DBState) (sku : String) (q : Int) : DBState :=
  { st with
    inventory := (st.inventory.filter (fun r => ¬ r.sku = sku)) ++
      [{ sku := sku, quantity := q }] }

/-- The admin_edit_item POST branch: if the item exists, UPDATE menu_items
at that id (rejected wholesale when the new sku collides with a different
row, modelling the caught IntegrityError) and INSERT OR IGNORE an
inventory row for the sku with quantity 0. -/
def admin_edit_item (st : DBState) (item_id : Nat) (name desc : String)
    (price : ℚ) (sku : String) (active : Int) : DBState :=
  match st.menu_items.find? (fun m => m.id = item_id) with
  | none => st
  | some _ =>
      if st.menu_items.any (fun m => ¬ m.id = item_id ∧ m.sku = sku) then st
      else
        { st with
          menu_items := st.menu_items.map (fun m =>
            if m.id = item_id then
              { m with name := name, description := desc, price := price,
                       sku := sku, active := active }
            else m),
          inventory := insertOrIgnoreInv st.inventory sku 0 }

/-- The view_order route: look the order up, then join order_items with
menu_items on menu_item_id; each rendered row is (name from the menu join,
qty and price from the order_items row, subtotal qty * price computed from
the stored row). -/
def view_order (st : DBState) (oid : Nat) :
    Option (OrderRec × List (String × Int × ℚ × ℚ)) :=
  match st.orders.find? (fun o => o.id = oid) with
  | none => none
  | some o =>
      some (o, (st.order_items.filter (fun i => i.order_id = oid)).filterMap
        (fun i => (st.menu_items.find? (fun m => m.id = i.menu_item_id)).map
          (fun m => (m.name, i.qty, i.price, (i.qty : ℚ) * i.price))))

/-- The price data shown by view_order with the joined display name
stripped: the order total plus, per rendered line, (qty, price, subtotal). -/
def viewPriceData (st : DBState) (oid : Nat) :
    Option (ℚ × List (Int × ℚ × ℚ)) :=
  (view_order st oid).map (fun x => (x.1.total, x.2.map (fun y => y.2)))

/-- Every inventory row carries a nonnegative on-hand quantity. -/
def invNonneg (inv : List InvRecord) : Prop :=
  ∀ r ∈ inv, 0 ≤ r.quantity

/-- Rows appended to order_items by the commit loop of place_order, with
generated ids counting up from the given AUTOINCREMENT counter. -/
def newItems (oid : Nat) (k : Nat) : List Line → List OrderItemRec
  | [] => []
  | l :: ls =>
      { id := k, order_id := oid, menu_item_id := l.menu_id, qty := l.qty,
        price := l.price } :: newItems oid (k + 1) ls

/-- Inventory after the commit loop has run its UPDATE for every line in
order. -/
def decrementAll (inv : List InvRecord) (lines : List Line) : List InvRecord :=
  lines.foldl (fun iv l => applyDecrement iv l.sku l.qty) inv

/-- Aggregate requested quantity for one stock key across all lines. -/
def aggQty (lines : List Line) (s : String) : Int :=
  ((lines.filter (fun l => l.sku = s)).map (fun l => l.qty)).sum

/-- On-hand quantity for a stock key, 0 when no row exists. -/
def onHand (inv : List InvRecord) (s : String) : Int :=
  (invLookup inv s).getD 0

/-- A concrete state used for witnesses: an active Espresso item (id 1)
and a deactivated Ice Tea item (id 2), both with 50 units on hand. -/
def espresso : MenuItem :=
  { id := 1, name := "Espresso", description := "Strong classic espresso",
    price := 80, sku := "ESP-01", active := 1 }

def iceTea : MenuItem :=
  { id := 2, name := "Ice Tea", description := "Chilled tea",
    price := 60, sku := "TEA-01", active := 0 }

def sampleSt : DBState :=
  { menu_items := [espresso, iceTea],
    inventory := [{ sku := "ESP-01", quantity := 50 }, { sku := "TEA-01", quantity := 50 }],
    orders := [], order_items := [],
    next_order_id := 1, next_order_item_id := 1 }

/-! Helper lemmas about the embedded operations. -/

theorem formQty_of_all_nonpos (form : List (Nat × Int))
    (h : ∀ p ∈ form, p.2 ≤ 0) (i : Nat) : formQty form i ≤ 0 := by
  unfold formQty
  cases hf : form.find? (fun p => p.1 = i) with
  | none => exact le_refl 0
  | some p => exact h p (List.mem_of_find?_eq_some hf)

theorem collectLines_eq_nil (form : List (Nat × Int))
    (h : ∀ p ∈ form, p.2 ≤ 0) :
    ∀ menu : List MenuItem, collectLines form menu = [] := by
  intro menu
  induction menu with
  | nil => rfl
  | cons m ms ih =>
      have hq := formQty_of_all_nonpos form h m.id
      simp only [collectLines]
      rw [if_neg (by omega)]
      exact ih

theorem formQty_cons_ne (i j : Nat) (q : Int) (form : List (Nat × Int))
    (h : ¬ i = j) : formQty ((i, q) :: form) j = formQty form j := by
  unfold formQty
  simp [List.find?, h]

theorem collectLines_congr (f1 f2 : List (Nat × Int)) (menu : List MenuItem)
    (h : ∀ m ∈ menu, formQty f1 m.id = formQty f2 m.id) :
    collectLines f1 menu = collectLines f2 menu := by
  induction menu with
  | nil => rfl
  | cons m ms ih =>
      simp only [collectLines]
      rw [h m (List.mem_cons_self m ms), ih (fun x hx => h x (List.mem_cons_of_mem m hx))]

theorem find?_filterNe_append (inv : List InvRecord) (s : String) (q : Int) :
    (inv.filter (fun r => ¬ r.sku = s) ++
        ([{ sku := s, quantity := q }] : List InvRecord)).find?
      (fun r => r.sku = s) = some { sku := s, quantity := q } := by
  induction inv with
  | nil => simp [List.find?]
  | cons r rs ih =>
      by_cases h : r.sku = s
      · simp [h, ih]
      · simp [List.find?, h, ih]

theorem foldl_add_subtotal (lines : List Line) :
    ∀ a : ℚ, lines.foldl (fun acc l => acc + l.subtotal) a
      = a + (lines.map (fun l => l.subtotal)).sum := by
  induction lines with
  | nil => intro a; simp
  | cons l ls ih => intro a; simp [List.foldl, ih, add_assoc]

theorem computeTotal_eq_sum (lines : List Line) :
    computeTotal lines = (lines.map (fun l => l.subtotal)).sum := by
  unfold computeTotal
  rw [foldl_add_subtotal]
  simp

theorem collectLines_subtotal (form : List (Nat × Int)) :
    ∀ menu : List MenuItem, ∀ l ∈ collectLines form menu,
      l.subtotal = (l.qty : ℚ) * l.price := by
  intro menu
  induction menu with
  | nil => intro l hl; cases hl
  | cons m ms ih =>
      intro l hl
      simp only [collectLines] at hl
      by_cases h : 0 < formQty form m.id
      · rw [if_pos h] at hl
        rcases List.mem_cons.mp hl with h1 | h1
        · subst h1; rfl
        · exact ih l h1
      · rw [if_neg h] at hl
        exact ih l hl

theorem collectLines_qty_pos (form : List (Nat × Int)) :
    ∀ menu : List MenuItem, ∀ l ∈ collectLines form menu, 0 < l.qty := by
  intro menu
  induction menu with
  | nil => intro l hl; cases hl
  | cons m ms ih =>
      intro l hl
      simp only [collectLines] at hl
      by_cases h : 0 < formQty form m.id
      · rw [if_pos h] at hl
        rcases List.mem_cons.mp hl with h1 | h1
        · subst h1; exact h
        · exact ih l h1
      · rw [if_neg h] at hl
        exact ih l hl

theorem collectLines_from_menu (form : List (Nat × Int)) :
    ∀ menu : List MenuItem, ∀ l ∈ collectLines form menu,
      ∃ m ∈ menu, l.menu_id = m.id ∧ l.price = m.price ∧ l.qty = formQty form m.id := by
  intro menu
  induction menu with
  | nil => intro l hl; cases hl
  | cons m ms ih =>
      intro l hl
      simp only [collectLines] at hl
      by_cases h : 0 < formQty form m.id
      · rw [if_pos h] at hl
        rcases List.mem_cons.mp hl with h1 | h1
        · exact ⟨m, List.mem_cons_self m ms, by subst h1; exact ⟨rfl, rfl, rfl⟩⟩
        · obtain ⟨m2, hm2, he⟩ := ih l h1
          exact ⟨m2, List.mem_cons_of_mem m hm2, he⟩
      · rw [if_neg h] at hl
        obtain ⟨m2, hm2, he⟩ := ih l hl
        exact ⟨m2, List.mem_cons_of_mem m hm2, he⟩

theorem collectLines_total_by_menu (form : List (Nat × Int)) :
    ∀ menu : List MenuItem,
      ((collectLines form menu).map (fun l => l.subtotal)).sum
        = (menu.map (fun m =>
            if 0 < formQty form m.id then (formQty form m.id : ℚ) * m.price else 0)).sum := by
  intro menu
  induction menu with
  | nil => rfl
  | cons m ms ih =>
      simp only [collectLines, List.map_cons, List.sum_cons]
      by_cases h : 0 < formQty form m.id
      · rw [if_pos h, if_pos h, List.map_cons, List.sum_cons, ih]
      · rw [if_neg h, if_neg h, ih, zero_add]

theorem collectLines_sku_sublist (form : List (Nat × Int)) :
    ∀ menu : List MenuItem,
      ((collectLines form menu).map (fun l => l.sku)).Sublist
        (menu.map (fun m => m.sku)) := by
  intro menu
  induction menu with
  | nil => simp [collectLines]
  | cons m ms ih =>
      simp only [collectLines, List.map_cons]
      by_cases h : 0 < formQty form m.id
      · rw [if_pos h]; exact ih.cons₂ m.sku
      · rw [if_neg h]; exact ih.cons m.sku

theorem lineSteps_orders (oid : Nat) :
    ∀ (lines : List Line) (st : DBState),
      ((lineSteps oid lines).foldl applyStep st).orders = st.orders := by
  intro lines
  induction lines with
  | nil => intro st; rfl
  | cons l ls ih => intro st; exact ih _

theorem lineSteps_menu (oid : Nat) :
    ∀ (lines : List Line) (st : DBState),
      ((lineSteps oid lines).foldl applyStep st).menu_items = st.menu_items := by
  intro lines
  induction lines with
  | nil => intro st; rfl
  | cons l ls ih => intro st; exact ih _

theorem lineSteps_inventory (oid : Nat) :
    ∀ (lines : List Line) (st : DBState),
      ((lineSteps oid lines).foldl applyStep st).inventory
        = decrementAll st.inventory lines := by
  intro lines
  induction lines with
  | nil => intro st; rfl
  | cons l ls ih => intro st; exact ih _

theorem lineSteps_order_items (oid : Nat) :
    ∀ (lines : List Line) (st : DBState),
      ((lineSteps oid lines).foldl applyStep st).order_items
        = st.order_items ++ newItems oid st.next_order_item_id lines := by
  intro lines
  induction lines with
  | nil => intro st; simp [lineSteps, newItems]
  | cons l ls ih =>
      intro st
      simp only [lineSteps, List.foldl, applyStep, newItems]
      rw [ih]
      simp

/-- Full characterization of the success branch of place_order. -/
theorem place_order_placed_state (st : DBState) (t : String)
    (form : List (Nat × Int)) (oid : Nat) (tot : ℚ) (st2 : DBState)
    (h : place_order st t form = (.placed oid tot, st2)) :
    oid = st.next_order_id
    ∧ tot = computeTotal (collectLines form (activeMenu st))
    ∧ checkInventory st.inventory (collectLines form (activeMenu st)) = none
    ∧ st2.orders = st.orders ++
        [{ id := st.next_order_id, created_at := t, total := tot }]
    ∧ st2.order_items = st.order_items ++
        newItems st.next_order_id st.next_order_item_id
          (collectLines form (activeMenu st))
    ∧ st2.inventory = decrementAll st.inventory (collectLines form (activeMenu st))
    ∧ st2.menu_items = st.menu_items := by
  unfold place_order at h
  by_cases hE : (collectLines form (activeMenu st)).isEmpty = true
  · rw [if_pos hE] at h
    simp at h
  · rw [if_neg hE] at h
    cases hc : checkInventory st.inventory (collectLines form (activeMenu st)) with
    | some name => rw [hc] at h; simp at h
    | none =>
        rw [hc] at h
        have h1 : PlaceOrderResult.placed st.next_order_id
            (computeTotal (collectLines form (activeMenu st))) = .placed oid tot :=
          congrArg Prod.fst h
        have h2 : (commitSteps st t (collectLines form (activeMenu st))
            (computeTotal (collectLines form (activeMenu st)))).foldl applyStep st
            = st2 := congrArg Prod.snd h
        obtain ⟨ho, ht⟩ : st.next_order_id = oid ∧
            computeTotal (collectLines form (activeMenu st)) = tot := by
          cases h1; exact ⟨rfl, rfl⟩
        subst ho ht
        rw [← h2]
        unfold commitSteps
        refine ⟨rfl, rfl, rfl, ?_, ?_, ?_, ?_⟩
        · rw [List.foldl_cons, lineSteps_orders]
          rfl
        · rw [List.foldl_cons, lineSteps_order_items]
          rfl
        · rw [List.foldl_cons, lineSteps_inventory]
          rfl
        · rw [List.foldl_cons, lineSteps_menu]
          rfl

theorem newItems_filter_self (oid : Nat) :
    ∀ (lines : List Line) (k : Nat),
      (newItems oid k lines).filter (fun i => i.order_id = oid)
        = newItems oid k lines := by
  intro lines
  induction lines with
  | nil => intro k; rfl
  | cons l ls ih => intro k; simp [newItems, ih]

theorem newItems_map_price (oid : Nat) :
    ∀ (lines : List Line) (k : Nat),
      (newItems oid k lines).map (fun i => (i.qty : ℚ) * i.price)
        = lines.map (fun l => (l.qty : ℚ) * l.price) := by
  intro lines
  induction lines with
  | nil => intro k; rfl
  | cons l ls ih => intro k; simp [newItems, ih]

theorem newItems_map_triple (oid : Nat) :
    ∀ (lines : List Line) (k : Nat),
      (newItems oid k lines).map (fun i => (i.menu_item_id, i.qty, i.price))
        = lines.map (fun l => (l.menu_id, l.qty, l.price)) := by
  intro lines
  induction lines with
  | nil => intro k; rfl
  | cons l ls ih => intro k; simp [newItems, ih]

theorem map_sum_congr (lines : List Line)
    (f g : Line → ℚ) (h : ∀ l ∈ lines, f l = g l) :
    (lines.map f).sum = (lines.map g).sum := by
  induction lines with
  | nil => rfl
  | cons l ls ih =>
      simp only [List.map_cons, List.sum_cons]
      rw [h l (List.mem_cons_self l ls),
        ih (fun x hx => h x (List.mem_cons_of_mem l hx))]

theorem find?_sku_unique (s : String) :
    ∀ inv : List InvRecord, (inv.map (fun r => r.sku)).Nodup →
      ∀ r0, inv.find? (fun r => r.sku = s) = some r0 →
      ∀ r ∈ inv, r.sku = s → r = r0 := by
  intro inv
  induction inv with
  | nil => intro _ r0 hf; cases hf
  | cons a as ih =>
      intro hnd r0 hf r hr hs
      have hhead : a.sku ∉ as.map (fun r => r.sku) :=
        (List.nodup_cons.mp (by simpa using hnd)).1
      by_cases ha : a.sku = s
      · have : some a = some r0 := by simpa [List.find?, ha] using hf
        obtain rfl : a = r0 := Option.some.inj this
        rcases List.mem_cons.mp hr with h1 | h1
        · exact h1
        · exact absurd ((ha.trans hs.symm) ▸ List.mem_map_of_mem _ h1) hhead
      · have hf2 : as.find? (fun r => r.sku = s) = some r0 := by
          simpa [List.find?, ha] using hf
        rcases List.mem_cons.mp hr with h1 | h1
        · exact absurd (h1 ▸ hs) ha
        · exact ih (List.nodup_cons.mp (by simpa using hnd)).2 r0 hf2 r h1 hs

theorem checkInventory_none_bound (inv : List InvRecord)
    (hi : (inv.map (fun r => r.sku)).Nodup) :
    ∀ lines : List Line, checkInventory inv lines = none →
      ∀ l ∈ lines, ∀ r ∈ inv, r.sku = l.sku → l.qty ≤ r.quantity := by
  intro lines
  induction lines with
  | nil => intro _ l hl; cases hl
  | cons l0 ls ih =>
      intro hc l hl r hr hsk
      unfold checkInventory at hc
      split at hc
      · cases hc
      · rename_i q hf
        by_cases hq : q < l0.qty
        · rw [if_pos hq] at hc; cases hc
        · rw [if_neg hq] at hc
          rcases List.mem_cons.mp hl with h1 | h1
          · subst h1
            obtain ⟨r0, hr0, hq0⟩ := Option.map_eq_some'.mp hf
            have : r = r0 := find?_sku_unique l.sku inv hi r0 hr0 r hr hsk
            subst this
            omega
          · exact ih hc l h1 r hr hsk

theorem decrementAll_nonneg :
    ∀ (lines : List Line) (inv : List InvRecord),
      (lines.map (fun l => l.sku)).Nodup →
      (∀ l ∈ lines, ∀ r ∈ inv, r.sku = l.sku → l.qty ≤ r.quantity) →
      invNonneg inv → invNonneg (decrementAll inv lines) := by
  intro lines
  induction lines with
  | nil => intro inv _ _ h0; exact h0
  | cons l ls ih =>
      intro inv hnd hbound h0
      have hhead : l.sku ∉ ls.map (fun x => x.sku) :=
        (List.nodup_cons.mp (by simpa using hnd)).1
      have hstep : invNonneg (applyDecrement inv l.sku l.qty) := by
        intro r2 hr2
        obtain ⟨r, hr, hEq⟩ := List.mem_map.mp hr2
        by_cases hs : r.sku = l.sku
        · rw [if_pos hs] at hEq
          subst hEq
          have := hbound l (List.mem_cons_self l ls) r hr hs
          simp only []
          omega
        · rw [if_neg hs] at hEq
          subst hEq
          exact h0 r hr
      have hb2 : ∀ l2 ∈ ls, ∀ r2 ∈ applyDecrement inv l.sku l.qty,
          r2.sku = l2.sku → l2.qty ≤ r2.quantity := by
        intro l2 hl2 r2 hr2 hsk
        obtain ⟨r, hr, hEq⟩ := List.mem_map.mp hr2
        by_cases hs : r.sku = l.sku
        · exfalso
          rw [if_pos hs] at hEq
          have hr2sku : r2.sku = l.sku := by rw [← hEq]; exact hs
          exact hhead ((hr2sku.symm.trans hsk) ▸ List.mem_map_of_mem _ hl2)
        · rw [if_neg hs] at hEq
          subst hEq
          exact hbound l2 (List.mem_cons_of_mem l hl2) r hr hsk
      exact ih (applyDecrement inv l.sku l.qty)
        (List.nodup_cons.mp (by simpa using hnd)).2 hb2 hstep

theorem filter_sku_single :
    ∀ lines : List Line, ((lines.map (fun l => l.sku)).Nodup) → ∀ l0 ∈ lines,
      lines.filter (fun l => l.sku = l0.sku) = [l0] := by
  intro lines
  induction lines with
  | nil => intro _ l0 h; cases h
  | cons a as ih =>
      intro hnd l0 hl0
      have hhead : a.sku ∉ as.map (fun l => l.sku) :=
        (List.nodup_cons.mp (by simpa using hnd)).1
      rcases List.mem_cons.mp hl0 with h1 | h1
      · subst h1
        have htail : as.filter (fun l => l.sku = l0.sku) = [] := by
          rw [List.filter_eq_nil_iff]
          intro x hx
          simp only [decide_eq_true_eq]
          intro hxx
          exact hhead (hxx ▸ List.mem_map_of_mem _ hx)
        simp [List.filter_cons, htail]
      · have hne : ¬ a.sku = l0.sku := fun he =>
          hhead (he ▸ List.mem_map_of_mem _ h1)
        simp [List.filter_cons, hne,
          ih (List.nodup_cons.mp (by simpa using hnd)).2 l0 h1]

theorem aggQty_single (lines : List Line)
    (hnd : (lines.map (fun l => l.sku)).Nodup) (l0 : Line) (hl0 : l0 ∈ lines) :
    aggQty lines l0.sku = l0.qty := by
  unfold aggQty
  rw [filter_sku_single lines hnd l0 hl0]
  simp

theorem checkInventory_fail (inv : List InvRecord) :
    ∀ lines : List Line, (∀ l ∈ lines, 0 < l.qty) →
      (∃ l ∈ lines, onHand inv l.sku < l.qty) →
      ∃ l ∈ lines, checkInventory inv lines = some l.name
        ∧ onHand inv l.sku < l.qty := by
  intro lines
  induction lines with
  | nil => intro _ h; obtain ⟨l, hl, _⟩ := h; cases hl
  | cons a as ih =>
      intro hpos hex
      cases hf : invLookup inv a.sku with
      | none =>
          refine ⟨a, List.mem_cons_self a as, ?_, ?_⟩
          · show checkInventory inv (a :: as) = some a.name
            unfold checkInventory
            rw [hf]
          · show onHand inv a.sku < a.qty
            unfold onHand
            rw [hf]
            exact hpos a (List.mem_cons_self a as)
      | some q =>
          by_cases hq : q < a.qty
          · refine ⟨a, List.mem_cons_self a as, ?_, ?_⟩
            · show checkInventory inv (a :: as) = some a.name
              unfold checkInventory
              rw [hf]
              show (if q < a.qty then some a.name else checkInventory inv as)
                = some a.name
              rw [if_pos hq]
            · show onHand inv a.sku < a.qty
              unfold onHand
              rw [hf]
              exact hq
          · have hex2 : ∃ l ∈ as, onHand inv l.sku < l.qty := by
              obtain ⟨l, hl, hfl⟩ := hex
              rcases List.mem_cons.mp hl with h1 | h1
              · exfalso
                subst h1
                have hOn : onHand inv l.sku = q := by
                  unfold onHand
                  rw [hf]
                  rfl
                omega
              · exact ⟨l, h1, hfl⟩
            obtain ⟨l2, hl2, hres, hf2⟩ :=
              ih (fun x hx => hpos x (List.mem_cons_of_mem a hx)) hex2
            refine ⟨l2, List.mem_cons_of_mem a hl2, ?_, hf2⟩
            show checkInventory inv (a :: as) = some l2.name
            unfold checkInventory
            rw [hf]
            show (if q < a.qty then some a.name else checkInventory inv as)
              = some l2.name
            rw [if_neg hq]
            exact hres

theorem filter_fresh_nil (items : List OrderItemRec) (n : Nat)
    (hfresh : ∀ i ∈ items, ¬ i.order_id = n) :
    items.filter (fun i => i.order_id = n) = [] := by
  rw [List.filter_eq_nil_iff]
  intro a ha
  simp only [decide_eq_true_eq]
  exact hfresh a ha

theorem admin_edit_tables (st : DBState) (item_id : Nat) (nm ds : String)
    (pr : ℚ) (sk : String) (ac : Int) :
    (admin_edit_item st item_id nm ds pr sk ac).orders = st.orders
    ∧ (admin_edit_item st item_id nm ds pr sk ac).order_items = st.order_items := by
  unfold admin_edit_item
  split
  · exact ⟨rfl, rfl⟩
  · split
    · exact ⟨rfl, rfl⟩
    · exact ⟨rfl, rfl⟩

theorem find?_id_map (f : MenuItem → MenuItem) (hf : ∀ m, (f m).id = m.id) :
    ∀ (l : List MenuItem) (j : Nat),
      (l.map f).find? (fun m => m.id = j) = (l.find? (fun m => m.id = j)).map f := by
  intro l j
  induction l with
  | nil => rfl
  | cons a as ih =>
      by_cases h : a.id = j
      · simp [List.find?, List.map_cons, hf, h]
      · simp [List.find?, List.map_cons, hf, h, ih]

theorem filterMap_congr_fun {α β : Type} (f g : α → Option β) :
    ∀ l : List α, (∀ a ∈ l, f a = g a) → l.filterMap f = l.filterMap g := by
  intro l
  induction l with
  | nil => intro _; rfl
  | cons a as ih =>
      intro h
      rw [List.filterMap_cons, List.filterMap_cons, h a (List.mem_cons_self a as),
        ih (fun x hx => h x (List.mem_cons_of_mem a hx))]

theorem viewPriceData_edit (st : DBState) (item_id : Nat) (nm ds : String)
    (pr : ℚ) (sk : String) (ac : Int) (oid : Nat) :
    viewPriceData (admin_edit_item st item_id nm ds pr sk ac) oid
      = viewPriceData st oid := by
  unfold admin_edit_item
  split
  · rfl
  · split
    · rfl
    · unfold viewPriceData view_order
      cases ho : st.orders.find? (fun o => o.id = oid) with
      | none => simp [ho]
      | some o =>
          simp only [ho, Option.map_some']
          refine congrArg some (congrArg (Prod.mk o.total) ?_)
          rw [List.map_filterMap, List.map_filterMap]
          apply filterMap_congr_fun
          intro i _
          rw [find?_id_map (fun m => if m.id = item_id then
              { id := m.id, name := nm, description := ds, price := pr,
                sku := sk, active := ac } else m)
            (fun m => by by_cases h2 : m.id = item_id <;> simp [h2])
            st.menu_items i.menu_item_id]
          cases st.menu_items.find? (fun m => m.id = i.menu_item_id) with
          | none => rfl
          | some m => rfl

/-! Claim theorems. -/

/-- C1 (code_bug evidence): the commit of the order for basket
{Espresso: 2} from sampleSt is a sequence of three individually committed
statements; the state after the first one — durable if any later statement
fails, because execute_db commits per statement — already contains the
Order record while order_items is empty and inventory is untouched, an
observable intermediate state that the all-or-nothing claim says cannot
exist (and the code has no rollback and no CommitFailed result at all). -/
theorem commit_intermediate_state_observable :
    (commitPrefix sampleSt (commitSteps sampleSt "ts"
        (collectLines [(1, 2)] (activeMenu sampleSt))
        (computeTotal (collectLines [(1, 2)] (activeMenu sampleSt)))) 1).orders
      = [{ id := 1, created_at := "ts", total := 160 }]
    ∧ (commitPrefix sampleSt (commitSteps sampleSt "ts"
        (collectLines [(1, 2)] (activeMenu sampleSt))
        (computeTotal (collectLines [(1, 2)] (activeMenu sampleSt)))) 1).inventory
      = sampleSt.inventory
    ∧ (commitPrefix sampleSt (commitSteps sampleSt "ts"
        (collectLines [(1, 2)] (activeMenu sampleSt))
        (computeTotal (collectLines [(1, 2)] (activeMenu sampleSt)))) 1).order_items
      = []
    ∧ commitPrefix sampleSt (commitSteps sampleSt "ts"
        (collectLines [(1, 2)] (activeMenu sampleSt))
        (computeTotal (collectLines [(1, 2)] (activeMenu sampleSt)))) 3
      = (place_order sampleSt "ts" [(1, 2)]).2 := by
  norm_num [place_order, activeMenu, collectLines, formQty, computeTotal,
    checkInventory, invLookup, commitSteps, lineSteps, applyStep, applyDecrement,
    commitPrefix, sampleSt, espresso, iceTea, List.find?, List.isEmpty]

/-- C5 counterexample: a basket referencing the deactivated item (id 2)
alongside the active Espresso is not rejected: the order is placed with
just the Espresso line (partial acceptance, writes performed), and no
ItemUnavailable result exists in the program. -/
theorem place_order_inactive_partial_acceptance :
    (place_order sampleSt "ts" [(1, 1), (2, 5)]).1 = .placed 1 80
    ∧ ¬ (place_order sampleSt "ts" [(1, 1), (2, 5)]).2 = sampleSt := by
  norm_num [place_order, activeMenu, collectLines, formQty, computeTotal,
    checkInventory, invLookup, commitSteps, lineSteps, applyStep, applyDecrement,
    sampleSt, espresso, iceTea, List.find?, List.isEmpty]

/-- C5 amended: a form entry whose id is not the id of any active menu
item — nonexistent or inactive — is silently ignored: place_order behaves
exactly as if the entry were absent. -/
theorem place_order_ignores_unknown_ids (st : DBState) (t : String)
    (form : List (Nat × Int)) (i : Nat) (q : Int)
    (h : ∀ m ∈ activeMenu st, ¬ m.id = i) :
    place_order st t ((i, q) :: form) = place_order st t form := by
  unfold place_order
  rw [collectLines_congr ((i, q) :: form) form (activeMenu st)
    (fun m hm => formQty_cons_ne i m.id q form (fun he => h m hm he.symm))]

/-- C5 amended, witness: the deactivated item id 2 is ignored. -/
theorem place_order_ignores_unknown_ids_witness :
    place_order sampleSt "ts" [(2, 5)] = place_order sampleSt "ts" [] :=
  place_order_ignores_unknown_ids sampleSt "ts" [] 2 5 (by decide)

/-- C6 counterexample: a basket entry with negative quantity is silently
dropped — place_order returns the generic empty rejection with no write,
not a distinct InvalidQuantity error (which does not exist in the code). -/
theorem place_order_negative_qty_dropped :
    place_order sampleSt "ts" [(1, -3)] = (.emptyOrder, sampleSt) := by
  norm_num [place_order, activeMenu, collectLines, formQty, computeTotal,
    checkInventory, invLookup, sampleSt, espresso, iceTea, List.find?, List.isEmpty]

/-- C6 amended: entries with non-positive quantity are omitted exactly
like absent entries; a basket whose quantities are all non-positive is
rejected as empty with no write. -/
theorem place_order_all_nonpos (st : DBState) (t : String)
    (form : List (Nat × Int)) (h : ∀ p ∈ form, p.2 ≤ 0) :
    place_order st t form = (.emptyOrder, st) := by
  unfold place_order
  rw [collectLines_eq_nil form h (activeMenu st)]
  rfl

/-- C6 amended, witness. -/
theorem place_order_all_nonpos_witness :
    place_order sampleSt "ts" [(1, -3), (2, 0)] = (.emptyOrder, sampleSt) :=
  place_order_all_nonpos sampleSt "ts" [(1, -3), (2, 0)] (by decide)

/-- C7: when no line survives the positive-quantity filter, place_order
returns the empty-order rejection with the state unchanged (so no table
was written and no inventory check ran). -/
theorem place_order_empty_rejected (st : DBState) (t : String)
    (form : List (Nat × Int)) (h : collectLines form (activeMenu st) = []) :
    place_order st t form = (.emptyOrder, st) := by
  unfold place_order
  rw [h]
  rfl

/-- C7 witness: the empty form. -/
theorem place_order_empty_rejected_witness :
    place_order sampleSt "ts" [] = (.emptyOrder, sampleSt) :=
  place_order_empty_rejected sampleSt "ts" [] (by decide)

/-- C9: the accept/reject outcome of place_order is a function of the
database state and the basket alone — the timestamp (the only
run-to-run nondeterminism) does not influence it, so two runs from
identical catalog and inventory state with the identical basket produce
the same outcome. -/
theorem place_order_outcome_deterministic (st : DBState)
    (form : List (Nat × Int)) (t1 t2 : String) :
    (place_order st t1 form).1 = (place_order st t2 form).1 := by
  unfold place_order
  cases hE : (collectLines form (activeMenu st)).isEmpty with
  | true => simp [hE]
  | false =>
      cases hc : checkInventory st.inventory (collectLines form (activeMenu st)) with
      | none => simp [hE, hc]
      | some name => simp [hE, hc]

/-- C10: admin_update_inventory stores exactly the supplied integer as the
on-hand quantity of the given sku, for every integer including negative
ones — there is no lower-bound validation on this route. -/
theorem admin_update_inventory_stores (st : DBState) (s : String) (q : Int) :
    invLookup (admin_update_inventory st s q).inventory s = some q := by
  unfold admin_update_inventory invLookup
  rw [find?_filterNe_append]
  rfl

/-- C2: when place_order accepts a basket, the total returned to the
caller equals the exact sum of quantity times catalog unit price over the
surviving basket lines, the new Order record stores that same total, and
the OrderLine rows written for the new order have subtotals (qty times
stored price) summing to it. The freshness hypothesis is the orders-table
AUTOINCREMENT invariant: no existing order_items row references the id
about to be assigned. -/
theorem place_order_total_correct (st : DBState) (t : String)
    (form : List (Nat × Int)) (oid : Nat) (tot : ℚ) (st2 : DBState)
    (hfresh : ∀ i ∈ st.order_items, ¬ i.order_id = st.next_order_id)
    (h : place_order st t form = (.placed oid tot, st2)) :
    tot = ((activeMenu st).map (fun m =>
        if 0 < formQty form m.id then (formQty form m.id : ℚ) * m.price else 0)).sum
    ∧ (∃ o ∈ st2.orders, o.id = oid ∧ o.total = tot)
    ∧ ((st2.order_items.filter (fun i => i.order_id = oid)).map
        (fun i => (i.qty : ℚ) * i.price)).sum = tot := by
  obtain ⟨ho, ht, hc, hor, hoi, hinv, hmenu⟩ :=
    place_order_placed_state st t form oid tot st2 h
  subst ho
  refine ⟨?_, ?_, ?_⟩
  · rw [ht, computeTotal_eq_sum, collectLines_total_by_menu]
  · refine ⟨{ id := st.next_order_id, created_at := t, total := tot }, ?_, rfl, rfl⟩
    rw [hor]
    exact List.mem_append_right _ (List.mem_singleton.mpr rfl)
  · rw [hoi, List.filter_append]
    rw [filter_fresh_nil st.order_items st.next_order_id hfresh, List.nil_append,
      newItems_filter_self, newItems_map_price]
    rw [map_sum_congr _ _ (fun l => l.subtotal)
        (fun l hl => (collectLines_subtotal form (activeMenu st) l hl).symm)]
    rw [← computeTotal_eq_sum, ht]

/-- C2 witness: Scenario A, basket of two espressos at price 80. -/
theorem place_order_total_correct_witness :
    (160 : ℚ) = ((activeMenu sampleSt).map (fun m =>
        if 0 < formQty [(1, 2)] m.id then (formQty [(1, 2)] m.id : ℚ) * m.price else 0)).sum
    ∧ (∃ o ∈ (place_order sampleSt "ts" [(1, 2)]).2.orders, o.id = 1 ∧ o.total = 160)
    ∧ (((place_order sampleSt "ts" [(1, 2)]).2.order_items.filter
          (fun i => i.order_id = 1)).map (fun i => (i.qty : ℚ) * i.price)).sum = 160 :=
  place_order_total_correct sampleSt "ts" [(1, 2)] 1 160
    (place_order sampleSt "ts" [(1, 2)]).2
    (by simp [sampleSt])
    (by
      have h1 : (place_order sampleSt "ts" [(1, 2)]).1 = .placed 1 160 := by
        norm_num [place_order, activeMenu, collectLines, formQty, computeTotal,
          checkInventory, invLookup, sampleSt, espresso, iceTea, List.find?,
          List.isEmpty]
      rw [← h1])

/-- C4: under the schema invariant that menu skus are unique (UNIQUE
column) — which makes the per-line check of the code coincide with the
per-distinct-stock-key aggregate check — whenever some stock key's on-hand
quantity is below the aggregate requested quantity, place_order rejects
the whole basket with the insufficient-inventory error naming an offending
item, and the state is returned unchanged (nothing written). -/
theorem place_order_insufficient_aggregate (st : DBState) (t : String)
    (form : List (Nat × Int))
    (hm : (st.menu_items.map (fun m => m.sku)).Nodup)
    (hfail : ∃ l ∈ collectLines form (activeMenu st),
        onHand st.inventory l.sku
          < aggQty (collectLines form (activeMenu st)) l.sku) :
    ∃ l ∈ collectLines form (activeMenu st),
      onHand st.inventory l.sku < l.qty
      ∧ place_order st t form = (.insufficientInventory l.name, st) := by
  have hnd : ((collectLines form (activeMenu st)).map (fun l => l.sku)).Nodup :=
    hm.sublist ((collectLines_sku_sublist form (activeMenu st)).trans
      ((List.filter_sublist _).map _))
  have hex : ∃ l ∈ collectLines form (activeMenu st),
      onHand st.inventory l.sku < l.qty := by
    obtain ⟨l, hl, hfl⟩ := hfail
    rw [aggQty_single _ hnd l hl] at hfl
    exact ⟨l, hl, hfl⟩
  obtain ⟨l2, hl2, hres, hf2⟩ := checkInventory_fail st.inventory _
    (collectLines_qty_pos form (activeMenu st)) hex
  have hnonempty : ¬ (collectLines form (activeMenu st)).isEmpty = true := by
    intro hiE
    cases hE : collectLines form (activeMenu st) with
    | nil => rw [hE] at hl2; cases hl2
    | cons x xs => rw [hE] at hiE; cases hiE
  refine ⟨l2, hl2, hf2, ?_⟩
  unfold place_order
  rw [if_neg hnonempty, hres]

/-- C4 witness: Scenario B, basket of one hundred espressos against 50 on
hand. -/
theorem place_order_insufficient_aggregate_witness :
    ∃ l ∈ collectLines [(1, 100)] (activeMenu sampleSt),
      onHand sampleSt.inventory l.sku < l.qty
      ∧ place_order sampleSt "ts" [(1, 100)]
          = (.insufficientInventory l.name, sampleSt) :=
  place_order_insufficient_aggregate sampleSt "ts" [(1, 100)]
    (by decide) (by decide)

/-- C3 amended: order placement itself preserves nonnegative inventory —
under the schema invariants that menu skus and inventory skus are unique
(both are UNIQUE columns) — because every line must pass the inventory
check before any decrement runs; the administrative inventory route is the
route that can store a negative quantity. -/
theorem place_order_preserves_inventory_nonneg (st : DBState) (t : String)
    (form : List (Nat × Int))
    (hm : (st.menu_items.map (fun m => m.sku)).Nodup)
    (hi : (st.inventory.map (fun r => r.sku)).Nodup)
    (h0 : invNonneg st.inventory) :
    invNonneg (place_order st t form).2.inventory := by
  unfold place_order
  by_cases hE : (collectLines form (activeMenu st)).isEmpty = true
  · rw [if_pos hE]; exact h0
  · rw [if_neg hE]
    cases hc : checkInventory st.inventory (collectLines form (activeMenu st)) with
    | some n => exact h0
    | none =>
        show invNonneg ((commitSteps st t (collectLines form (activeMenu st))
          (computeTotal (collectLines form (activeMenu st)))).foldl applyStep st).inventory
        unfold commitSteps
        rw [List.foldl_cons, lineSteps_inventory]
        show invNonneg (decrementAll st.inventory (collectLines form (activeMenu st)))
        apply decrementAll_nonneg
        · exact hm.sublist ((collectLines_sku_sublist form (activeMenu st)).trans
            ((List.filter_sublist _).map _))
        · exact checkInventory_none_bound st.inventory hi _ hc
        · exact h0

/-- C3 amended, witness. -/
theorem place_order_preserves_inventory_nonneg_witness :
    invNonneg (place_order sampleSt "ts" [(1, 2)]).2.inventory :=
  place_order_preserves_inventory_nonneg sampleSt "ts" [(1, 2)]
    (by decide) (by decide) (by unfold invNonneg; decide)

/-- C8: each OrderLine row written by a successful place_order stores the
menu item id, the quantity and the catalog unit price in effect at commit
time; a later administrative edit of a catalog item (any new name,
description, price, sku, active flag) leaves the orders and order_items
tables unchanged; and the order-detail view derives quantity, price and
subtotal from the stored OrderLine rows, so its price data for the placed
order is unchanged by the edit. -/
theorem price_at_sale_frozen (st : DBState) (t : String)
    (form : List (Nat × Int)) (oid : Nat) (tot : ℚ) (st2 : DBState)
    (item_id : Nat) (nm ds : String) (pr : ℚ) (sk : String) (ac : Int)
    (hfresh : ∀ i ∈ st.order_items, ¬ i.order_id = st.next_order_id)
    (h : place_order st t form = (.placed oid tot, st2)) :
    ((st2.order_items.filter (fun i => i.order_id = oid)).map
        (fun i => (i.menu_item_id, i.qty, i.price)))
      = (collectLines form (activeMenu st)).map (fun l => (l.menu_id, l.qty, l.price))
    ∧ (∀ l ∈ collectLines form (activeMenu st),
        ∃ m ∈ activeMenu st, l.menu_id = m.id ∧ l.price = m.price)
    ∧ (admin_edit_item st2 item_id nm ds pr sk ac).orders = st2.orders
    ∧ (admin_edit_item st2 item_id nm ds pr sk ac).order_items = st2.order_items
    ∧ viewPriceData (admin_edit_item st2 item_id nm ds pr sk ac) oid
      = viewPriceData st2 oid := by
  obtain ⟨ho, ht, hc, hor, hoi, hinv, hmenu⟩ :=
    place_order_placed_state st t form oid tot st2 h
  subst ho
  refine ⟨?_, ?_, (admin_edit_tables st2 item_id nm ds pr sk ac).1,
    (admin_edit_tables st2 item_id nm ds pr sk ac).2,
    viewPriceData_edit st2 item_id nm ds pr sk ac st.next_order_id⟩
  · rw [hoi, List.filter_append]
    rw [filter_fresh_nil st.order_items st.next_order_id hfresh, List.nil_append,
      newItems_filter_self, newItems_map_triple]
  · intro l hl
    obtain ⟨m, hm, he1, he2, he3⟩ := collectLines_from_menu form (activeMenu st) l hl
    exact ⟨m, hm, he1, he2⟩

/-- C8 witness: place the Scenario A order, then edit the espresso item to
price 999; the stored rows and the view's price data survive unchanged. -/
theorem price_at_sale_frozen_witness :
    (((place_order sampleSt "ts" [(1, 2)]).2.order_items.filter
        (fun i => i.order_id = 1)).map (fun i => (i.menu_item_id, i.qty, i.price)))
      = (collectLines [(1, 2)] (activeMenu sampleSt)).map
          (fun l => (l.menu_id, l.qty, l.price))
    ∧ (∀ l ∈ collectLines [(1, 2)] (activeMenu sampleSt),
        ∃ m ∈ activeMenu sampleSt, l.menu_id = m.id ∧ l.price = m.price)
    ∧ (admin_edit_item (place_order sampleSt "ts" [(1, 2)]).2 1 "Espresso" "d"
        999 "ESP-01" 1).orders = (place_order sampleSt "ts" [(1, 2)]).2.orders
    ∧ (admin_edit_item (place_order sampleSt "ts" [(1, 2)]).2 1 "Espresso" "d"
        999 "ESP-01" 1).order_items
      = (place_order sampleSt "ts" [(1, 2)]).2.order_items
    ∧ viewPriceData (admin_edit_item (place_order sampleSt "ts" [(1, 2)]).2 1
        "Espresso" "d" 999 "ESP-01" 1) 1
      = viewPriceData (place_order sampleSt "ts" [(1, 2)]).2 1 :=
  price_at_sale_frozen sampleSt "ts" [(1, 2)] 1 160
    (place_order sampleSt "ts" [(1, 2)]).2 1 "Espresso" "d" 999 "ESP-01" 1
    (by simp [sampleSt])
    (by
      have h1 : (place_order sampleSt "ts" [(1, 2)]).1 = .placed 1 160 := by
        norm_num [place_order, activeMenu, collectLines, formQty, computeTotal,
          checkInventory, invLookup, sampleSt, espresso, iceTea, List.find?,
          List.isEmpty]
      rw [← h1])

/-- C3 counterexample: the administrative inventory route writes a
negative on-hand quantity unchanged, so not every exposed operation
preserves nonnegative inventory. -/
theorem admin_update_inventory_negative :
    invLookup (admin_update_inventory sampleSt "ESP-01" (-5)).inventory "ESP-01"
      = some (-5) ∧ ((-5 : Int) < 0) := by decide

end Cafe
